import Mathlib

/-!
# Verification of the `tin` compiler front end

A shallow embedding of the `tin` repository's parser core
(`src/libraries/tinhir/src/{hir.rs, parse.rs, error.rs}` and the
`PathGlob` of `src/src/hir.rs`), together with theorems settling the
frozen claims about the natural-language specification.

Source slices (`&'prgrm str` in Rust) are embedded as `List Char`; a
byte (`u8`) is a `Nat` below 256.  The parser is built on the `nom`
combinators actually used by the code (`not_line_ending`, `line_ending`,
`terminated`, `complete`) over `VerboseError`, modelled faithfully from
nom 7's `character::complete` module.
-/

namespace Tin

/-! ## HIR data model, from `src/libraries/tinhir/src/hir.rs` -/

/-- `pub struct Ident<'prgrm>(pub &'prgrm str);` -/
structure Ident where
  str : List Char
deriving DecidableEq

/-- `pub struct Ty<'prgrm>(pub &'prgrm str);` -/
structure Ty where
  str : List Char
deriving DecidableEq

/-- `pub struct TyIdent<'prgrm> { pub ident: Ident<'prgrm>, pub ty: Ty<'prgrm> }` -/
structure TyIdent where
  ident : Ident
  ty : Ty
deriving DecidableEq

/-- `pub enum Fields<'prgrm> { Named(Vec<TyIdent<'prgrm>>), Anonymous(Vec<Ty<'prgrm>>) }`

The fields of a type variant: either all named (ident + type pairs) or
all anonymous (types only).  A mixed variant is not representable. -/
inductive Fields where
  | Named : List TyIdent → Fields
  | Anonymous : List Ty → Fields
deriving DecidableEq

/-- `pub struct TyVariant<'prgrm> { pub name: Option<Ident<'prgrm>>, pub fields: Fields<'prgrm> }` -/
structure TyVariant where
  name : Option Ident
  fields : Fields
deriving DecidableEq

/-- `pub struct TyDecl<'prgrm>(pub Vec<TyVariant<'prgrm>>);` -/
structure TyDecl where
  variants : List TyVariant
deriving DecidableEq

/-- `pub enum Comment<'prgrm> { SingleLine(&'prgrm str), MultiLine(Vec<&'prgrm str>) }` -/
inductive Comment where
  | SingleLine : List Char → Comment
  | MultiLine : List (List Char) → Comment
deriving DecidableEq

/-- `pub struct PathGlob<'prgrm>(pub &'prgrm str);` -/
structure PathGlob where
  str : List Char
deriving DecidableEq

/-- `pub struct Path<'prgrm>(pub Cow<'prgrm, str>);`

The `Cow` only avoids allocation in Rust; its text content is what we
model. -/
structure Path where
  str : List Char
deriving DecidableEq

/-- `pub struct BStr<'prgrm>(pub &'prgrm [u8], pub &'prgrm str);` -/
structure BStr where
  bytes : List Nat
  src : List Char
deriving DecidableEq

mutual

/-- `pub enum Expr<'prgrm>` of `hir.rs`: expressions, with `Box<Expr>`
flattened away and the `FnCall` struct's two fields (`name`, `args`)
inlined into the `FnCall` constructor. -/
inductive Expr where
  | If : Expr → Block → Option Block → Expr
  | Unless : Expr → Block → Option Block → Expr
  | Loop : Block → Expr
  | While : Expr → Block → Expr
  | Until : Expr → Block → Expr
  | For : Expr → Expr → Block → Expr
  | Continue : List Char → Expr
  | Break : Option Expr → List Char → Expr
  | FnCall : Ident → List Expr → Expr
  | Ident : Ident → Expr
  | Dot : Expr → Expr → Expr

/-- `pub struct Block<'prgrm>(pub Vec<Stmt<'prgrm>>);` -/
inductive Block where
  | mk : List Stmt → Block

/-- `pub enum Stmt<'prgrm>`: the `VarAssign` struct's fields
(`name`, `ty`, `rhs`) are inlined into the `VarAssign` constructor. -/
inductive Stmt where
  | Comment : Comment → Stmt
  | VarAssign : Ident → Option Ty → Expr → Stmt
  | Expr : Expr → Stmt

end

/-- `pub struct FnDecl<'prgrm> { pub name, pub args, pub ret_ty, pub body }` -/
structure FnDecl where
  name : Ident
  args : List TyIdent
  ret_ty : Option Ty
  body : Block

/-- `pub enum TopStmt<'prgrm> { Comment(..), Use(..), FnDecl(..), TyDecl(..) }` -/
inductive TopStmt where
  | Comment : Comment → TopStmt
  | Use : PathGlob → TopStmt
  | FnDecl : FnDecl → TopStmt
  | TyDecl : TyDecl → TopStmt

/-- `pub struct Program<'prgrm>(pub Vec<TopStmt<'prgrm>>);` -/
structure Program where
  stmts : List TopStmt

/-- The `Display` impl for `Comment` in `hir.rs`: a single-line comment
prints its slice; a multi-line comment prints each line in order with no
separator. -/
def Comment.render : Comment → List Char
  | .SingleLine comment => comment
  | .MultiLine lines => lines.flatten

/-! ## Error type, from `src/libraries/tinhir/src/error.rs` -/

/-- `pub enum Error { ParseFailed, NoFile }` -/
inductive Error where
  | ParseFailed : Error
  | NoFile : Error
deriving DecidableEq

/-! ## The nom combinators used by `parse.rs`, from nom 7

Only the combinators the code actually applies are modelled:
`character::complete::{not_line_ending, line_ending}`,
`sequence::terminated`, and `combinator::complete`, over
`error::VerboseError`. -/

/-- The nom `ErrorKind`s that the modelled combinators can produce:
`not_line_ending` uses `Tag`, `line_ending` uses `CrLf`, and `complete`
uses `Complete`. -/
inductive ErrorKind where
  | Tag : ErrorKind
  | CrLf : ErrorKind
  | Complete : ErrorKind
deriving DecidableEq

/-- nom's `VerboseError<I>`: a list of context frames.  The combinators
in use only ever push `VerboseErrorKind::Nom(kind)` frames, so a frame
is an (input, `ErrorKind`) pair. -/
structure VerboseError where
  errors : List (List Char × ErrorKind)
deriving DecidableEq

/-- nom's `Err<E>`: `Incomplete(Needed)` (the needed amount is
irrelevant here), recoverable `Error(E)`, or unrecoverable
`Failure(E)`. -/
inductive NomErr where
  | Incomplete : NomErr
  | Error : VerboseError → NomErr
  | Failure : VerboseError → NomErr
deriving DecidableEq

/-- `IResult<I, O, E> = Result<(I, O), Err<E>>`, with the remaining
input first, specialised to `I = &str`, `E = VerboseError<&str>` (the
`ParseResult` alias of `parse.rs`). -/
abbrev NomResult (O : Type) : Type := Except NomErr (List Char × O)

/-- `VerboseError::from_error_kind(input, kind)`: a single frame. -/
def from_error_kind (input : List Char) (kind : ErrorKind) : VerboseError :=
  ⟨[(input, kind)]⟩

/-- Scanner for nom 7's `not_line_ending`: walk the input looking for
the first `'\r'` or `'\n'` (the `input.position(..)` call).  Returns
`some (consumed, remaining)` where `remaining` starts at the found
character (or is empty), and `none` when the found character is a
`'\r'` not followed by `'\n'` (the `compare("\r\n") != Ok` branch). -/
def nle_go : List Char → Option (List Char × List Char)
  | [] => some ([], [])
  | c :: rest =>
    if c = '\n' then some ([], c :: rest)
    else if c = '\r' then
      match rest with
      | d :: _ => if d = '\n' then some ([], c :: rest) else none
      | [] => none
    else
      match nle_go rest with
      | some (consumed, remaining) => some (c :: consumed, remaining)
      | none => none

/-- nom 7 `character::complete::not_line_ending`: consume up to, not
including, the first line ending; a `'\r'` not followed by `'\n'`
is an `Err::Error` with `ErrorKind::Tag` on the whole input. -/
def not_line_ending (input : List Char) : NomResult (List Char) :=
  match nle_go input with
  | some (consumed, remaining) => .ok (remaining, consumed)
  | none => .error (.Error (from_error_kind input .Tag))

/-- nom 7 `character::complete::line_ending`: recognise `"\n"` or
`"\r\n"`; anything else is an `Err::Error` with `ErrorKind::CrLf`. -/
def line_ending (input : List Char) : NomResult (List Char) :=
  match input with
  | [] => .error (.Error (from_error_kind input .CrLf))
  | c :: rest =>
    if c = '\n' then .ok (rest, ['\n'])
    else if c = '\r' then
      match rest with
      | [] => .error (.Error (from_error_kind input .CrLf))
      | d :: rest2 =>
        if d = '\n' then .ok (rest2, ['\r', '\n'])
        else .error (.Error (from_error_kind input .CrLf))
    else .error (.Error (from_error_kind input .CrLf))

/-- nom `sequence::terminated(first, second)`: run `first`, then
`second`, keeping `first`'s output; errors propagate unchanged. -/
def terminated (first second : List Char → NomResult (List Char)) (input : List Char) :
    NomResult (List Char) :=
  match first input with
  | .ok (input1, o1) =>
    match second input1 with
    | .ok (input2, _) => .ok (input2, o1)
    | .error e => .error e
  | .error e => .error e

/-- nom `combinator::complete`: turn `Err::Incomplete` into an
`Err::Error` with `ErrorKind::Complete` on the original input; pass
everything else through. -/
def complete (f : List Char → NomResult (List Char)) (input : List Char) :
    NomResult (List Char) :=
  match f input with
  | .error .Incomplete => .error (.Error (from_error_kind input .Complete))
  | r => r

/-! ## The parser, from `src/libraries/tinhir/src/parse.rs` -/

/-- `fn line(input: &str) -> ParseResult<&str, &str> {
      terminated(not_line_ending, line_ending)(input)
    }` -/
def line (input : List Char) : NomResult (List Char) :=
  terminated not_line_ending line_ending input

/-- `fn parse_with_errors(input: &str) -> ParseResult<&str, Program> {
      complete(line)(input).map(|(i, _)| (i, Program(Vec::new())))
    }` -/
def parse_with_errors (input : List Char) : NomResult Program :=
  (complete line input).map (fun io => (io.1, Program.mk []))

/-- `fn handle_error(input, error) -> AnyError`: on `Err::Incomplete`
the code hits `unreachable!()` and panics — modelled as `none`; on
`Err::Error` / `Err::Failure` it prints the rendered trace (a side
effect with no bearing on the result) and returns
`anyhow!(Error::ParseFailed)`. -/
def handle_error (input : List Char) (error : NomErr) : Option Error :=
  match error with
  | .Incomplete => none
  | .Error _ => some .ParseFailed
  | .Failure _ => some .ParseFailed

/-- `pub fn parse(input: &str) -> Result<Program> {
      parse_with_errors(input)
        .map(|(_, output)| output)
        .map_err(|error| handle_error(input, error))
    }`

The outer `Option` models panic: `none` would mean `handle_error`
reached its `unreachable!()`. -/
def parse (input : List Char) : Option (Except Error Program) :=
  match parse_with_errors input with
  | .ok (_, output) => some (.ok output)
  | .error error => (handle_error input error).map .error

/-! ## Observations on programs, used to state the claims -/

/-- Whether a top-level statement is a function declaration named `main`. -/
def TopStmt.is_main_fn : TopStmt → Bool
  | .FnDecl f => decide (f.name = ⟨"main".toList⟩)
  | _ => false

/-- The number of top-level `FnDecl`s named `main` in a program. -/
def num_main_fns (p : Program) : Nat :=
  (p.stmts.filter TopStmt.is_main_fn).length

/-- The type variants of the type declarations of a program. -/
def program_ty_variants (p : Program) : List TyVariant :=
  p.stmts.flatMap fun st =>
    match st with
    | .TyDecl d => d.variants
    | _ => []

/-- The top-level comment nodes of a program. -/
def program_comments (p : Program) : List Comment :=
  p.stmts.filterMap fun st =>
    match st with
    | .Comment c => some c
    | _ => none

/-- A `Fields` value is homogeneous: its fields are all named or all
anonymous.  Both representable cases qualify — the `Fields` enum of
`hir.rs` has no constructor mixing the two. -/
def homogeneous_fields : Fields → Bool
  | .Named _ => true
  | .Anonymous _ => true

/-- Every type variant of the program has homogeneous fields. -/
def all_variants_homogeneous (p : Program) : Bool :=
  (program_ty_variants p).all fun v => homogeneous_fields v.fields

/-- The input's first line — its maximal leading run of characters
other than `'\n'` and `'\r'` — is immediately terminated by a line
ending, `"\n"` or `"\r\n"`. -/
def first_line_terminated : List Char → Bool
  | [] => false
  | c :: rest =>
    if c = '\n' then true
    else if c = '\r' then decide (rest.head? = some '\n')
    else first_line_terminated rest

/-! ## Glob resolution

`PathGlob::resolve` in `src/src/hir.rs` has a `todo!()` body, so the
resolver itself is absent from the sources; it is modelled from the
spec's contract (§4.5). -/

/-- Modelled from the spec: the `'*'` wildcard loop of shell-style glob
matching — `star_loop continue_match text` tries to let a `'*'` absorb
a run of zero or more characters of `text`, never absorbing a `'/'`
(no cross-segment matching), and hands the rest to `continue_match`. -/
def star_loop (continue_match : List Char → Bool) : List Char → Bool
  | [] => continue_match []
  | d :: t => continue_match (d :: t) || (!(d = '/' : Bool) && star_loop continue_match t)

/-- Modelled from the spec: shell-style wildcard matching of a glob
pattern against a path's text; `'*'` matches any run of path-segment
characters (never crossing a `'/'`), and every other pattern character
matches only itself. -/
def glob_match : List Char → List Char → Bool
  | [], t => t.isEmpty
  | c :: p, t =>
    if c = '*' then star_loop (glob_match p) t
    else
      match t with
      | [] => false
      | d :: t' => decide (c = d) && glob_match p t'

/-- Modelled from the spec: `PathGlob::resolve` (body `todo!()` in
`src/src/hir.rs`) — given the collaborator-supplied ordered universe of
available module paths, produce the ordered set of concrete `Path`s
whose text matches the glob; a pure function, no filesystem I/O. -/
def PathGlob.resolve (glob : PathGlob) (paths : List Path) : List Path :=
  paths.filter fun p => glob_match glob.str p.str

/-! ## Byte-string literals

`fn bstr` in `src/libraries/tinhir/src/parse.rs` has a `todo!()` body,
so the byte-string literal parser is absent from the sources; it is
modelled from the spec (§4.1). -/

/-- Modelled from the spec: the content scan of the byte-string literal
parser (`fn bstr`, body `todo!()` in `parse.rs`).  Reads characters up
to the closing `'"'`, converting each to its byte; a character outside
the ASCII range, or a missing closing quote, is a recognition failure
(`none`), never a silent truncation.  Returns the decoded bytes, the
consumed characters including the closing quote, and the remaining
input. -/
def bstr_content : List Char → Option (List Nat × List Char × List Char)
  | [] => none
  | c :: rest =>
    if c = '"' then some ([], [c], rest)
    else if c.toNat ≤ 127 then
      match bstr_content rest with
      | some (bytes, consumed, remaining) => some (c.toNat :: bytes, c :: consumed, remaining)
      | none => none
    else none

/-- Modelled from the spec: the byte-string literal parser (`fn bstr`,
body `todo!()` in `parse.rs`): the string-literal syntax prefixed by
`b`, restricted to the ASCII range.  On success it returns the decoded
`BStr` — the bytes and the original source slice — and the remaining
input. -/
def bstr (input : List Char) : Option (BStr × List Char) :=
  match input with
  | 'b' :: '"' :: rest =>
    match bstr_content rest with
    | some (bytes, consumed, remaining) => some (⟨bytes, 'b' :: '"' :: consumed⟩, remaining)
    | none => none
  | _ => none

/-! ## Helper lemmas: how `line` behaves on an arbitrary input

The single grammar rule the code runs is `line`; everything the claims
need about `parse` follows from one case analysis: either the input's
first line is properly terminated and `line` succeeds, or it is not and
`line` fails with a recoverable `Err::Error`. -/

theorem line_ok_or_error (input : List Char) :
    (first_line_terminated input = true ∧ ∃ v, line input = Except.ok v)
    ∨ (first_line_terminated input = false ∧
        ∃ ve, line input = Except.error (NomErr.Error ve)) := by
  induction input with
  | nil => exact .inr ⟨rfl, ⟨from_error_kind [] .CrLf, rfl⟩⟩
  | cons c rest ih =>
    by_cases hn : c = '\n'
    · subst hn
      exact .inl ⟨rfl, ⟨(rest, []), rfl⟩⟩
    · by_cases hr : c = '\r'
      · subst hr
        cases rest with
        | nil => exact .inr ⟨rfl, ⟨from_error_kind ['\r'] .Tag, rfl⟩⟩
        | cons d rest2 =>
          by_cases hd : d = '\n'
          · subst hd
            exact .inl ⟨rfl, ⟨(rest2, []), rfl⟩⟩
          · refine .inr ⟨?_, ⟨from_error_kind ('\r' :: d :: rest2) .Tag, ?_⟩⟩
            · have h1 : first_line_terminated ('\r' :: d :: rest2)
                  = decide ((d :: rest2).head? = some '\n') := rfl
              rw [h1]
              simp [hd]
            · have h1 : nle_go ('\r' :: d :: rest2)
                  = if d = '\n' then some ([], '\r' :: d :: rest2) else none := rfl
              have h2 : nle_go ('\r' :: d :: rest2) = none := by rw [h1, if_neg hd]
              simp [line, terminated, not_line_ending, h2]
      · -- `c` is an ordinary character: `line (c :: rest)` succeeds or
        -- fails together with `line rest`.
        have hflt : first_line_terminated (c :: rest) = first_line_terminated rest := by
          have h1 : first_line_terminated (c :: rest)
              = if c = '\n' then true
                else if c = '\r' then decide (rest.head? = some '\n')
                else first_line_terminated rest := rfl
          rw [h1, if_neg hn, if_neg hr]
        have hng : ∀ pr, nle_go rest = some pr →
            nle_go (c :: rest) = some (c :: pr.1, pr.2) := by
          intro pr hpr
          have h1 : nle_go (c :: rest)
              = if c = '\n' then some ([], c :: rest)
                else if c = '\r' then
                  (match rest with
                   | d :: _ => if d = '\n' then some ([], c :: rest) else none
                   | [] => none)
                else
                  (match nle_go rest with
                   | some (consumed, remaining) => some (c :: consumed, remaining)
                   | none => none) := rfl
          rw [h1, if_neg hn, if_neg hr, hpr]
        have hngn : nle_go rest = none → nle_go (c :: rest) = none := by
          intro hpr
          have h1 : nle_go (c :: rest)
              = if c = '\n' then some ([], c :: rest)
                else if c = '\r' then
                  (match rest with
                   | d :: _ => if d = '\n' then some ([], c :: rest) else none
                   | [] => none)
                else
                  (match nle_go rest with
                   | some (consumed, remaining) => some (c :: consumed, remaining)
                   | none => none) := rfl
          rw [h1, if_neg hn, if_neg hr, hpr]
        rcases ih with ⟨hf, v, hv⟩ | ⟨hf, ve, hv⟩
        · -- `line rest` succeeded, so `not_line_ending rest` succeeded
          -- and `line_ending` succeeded on the same remaining input.
          rcases hok : nle_go rest with _ | ⟨con, rem⟩
          · exfalso
            simp [line, terminated, not_line_ending, hok] at hv
          · have hv' : line rest
                = match line_ending rem with
                  | .ok (input2, _) => .ok (input2, con)
                  | .error e => .error e := by
              simp [line, terminated, not_line_ending, hok]
            have hcv : line (c :: rest)
                = match line_ending rem with
                  | .ok (input2, _) => .ok (input2, c :: con)
                  | .error e => .error e := by
              simp [line, terminated, not_line_ending, hng (con, rem) hok]
            rcases hle : line_ending rem with e | ⟨i2, o2⟩
            · rw [hle] at hv'
              rw [hv'] at hv
              exact absurd hv (by simp)
            · refine .inl ⟨hflt.trans hf, ⟨(i2, c :: con), ?_⟩⟩
              rw [hcv, hle]
        · -- `line rest` failed with a recoverable error.
          rcases hok : nle_go rest with _ | ⟨con, rem⟩
          · refine .inr ⟨hflt.trans hf, ⟨from_error_kind (c :: rest) .Tag, ?_⟩⟩
            simp [line, terminated, not_line_ending, hngn hok]
          · have hv' : line rest
                = match line_ending rem with
                  | .ok (input2, _) => .ok (input2, con)
                  | .error e => .error e := by
              simp [line, terminated, not_line_ending, hok]
            have hcv : line (c :: rest)
                = match line_ending rem with
                  | .ok (input2, _) => .ok (input2, c :: con)
                  | .error e => .error e := by
              simp [line, terminated, not_line_ending, hng (con, rem) hok]
            rcases hle : line_ending rem with e | ⟨i2, o2⟩
            · rw [hle] at hv' hcv
              rw [hv'] at hv
              refine .inr ⟨hflt.trans hf, ⟨ve, ?_⟩⟩
              rw [hcv]
              exact congrArg Except.error (Except.error.inj hv)
            · exfalso
              rw [hle] at hv'
              rw [hv'] at hv
              exact absurd hv (by simp)

/-- `first_line_terminated` skips an ordinary leading character. -/
theorem flt_cons (c : Char) (rest : List Char) (hn : c ≠ '\n') (hr : c ≠ '\r') :
    first_line_terminated (c :: rest) = first_line_terminated rest := by
  have h1 : first_line_terminated (c :: rest)
      = if c = '\n' then true
        else if c = '\r' then decide (rest.head? = some '\n')
        else first_line_terminated rest := rfl
  rw [h1, if_neg hn, if_neg hr]

/-- A run of ordinary characters does not change whether the first line
is terminated. -/
theorem flt_append_of_clean (a tail : List Char) (h : first_line_terminated tail = true)
    (ha : ∀ c ∈ a, c ≠ '\n' ∧ c ≠ '\r') : first_line_terminated (a ++ tail) = true := by
  induction a with
  | nil => exact h
  | cons c a2 ih =>
    have hc := ha c (List.mem_cons_self c a2)
    rw [show (c :: a2) ++ tail = c :: (a2 ++ tail) from rfl, flt_cons _ _ hc.1 hc.2]
    exact ih fun x hx => ha x (List.mem_cons_of_mem _ hx)

/-- `first_line_terminated input` holds exactly when `input` splits as a
run of ordinary characters, then a line ending `"\n"` or `"\r\n"`,
then arbitrary trailing text. -/
theorem first_line_terminated_iff (input : List Char) :
    first_line_terminated input = true ↔
      ∃ a e b, input = a ++ e ++ b ∧ (e = ['\n'] ∨ e = ['\r', '\n']) ∧
        ∀ c ∈ a, c ≠ '\n' ∧ c ≠ '\r' := by
  constructor
  · induction input with
    | nil => intro h; exact absurd h (by decide)
    | cons c rest ih =>
      intro h
      by_cases hn : c = '\n'
      · subst hn
        exact ⟨[], ['\n'], rest, rfl, .inl rfl, by simp⟩
      · by_cases hr : c = '\r'
        · subst hr
          cases rest with
          | nil => exact absurd h (by decide)
          | cons d rest2 =>
            have h1 : first_line_terminated ('\r' :: d :: rest2)
                = decide ((d :: rest2).head? = some '\n') := rfl
            rw [h1] at h
            have hd : d = '\n' := by simpa using h
            subst hd
            exact ⟨[], ['\r', '\n'], rest2, rfl, .inr rfl, by simp⟩
        · rw [flt_cons c rest hn hr] at h
          obtain ⟨a, e, b, hsplit, he, ha⟩ := ih h
          refine ⟨c :: a, e, b, by rw [hsplit]; rfl, he, ?_⟩
          intro x hx
          rcases List.mem_cons.mp hx with rfl | hx2
          · exact ⟨hn, hr⟩
          · exact ha x hx2
  · rintro ⟨a, e, b, rfl, he, ha⟩
    have htail : first_line_terminated (e ++ b) = true := by
      rcases he with rfl | rfl
      · rfl
      · rfl
    rw [List.append_assoc]
    exact flt_append_of_clean a (e ++ b) htail ha

/-- `parse` succeeds with the empty program exactly when the first line
is terminated, and otherwise fails with `ParseFailed`; it never hits
the `unreachable!()` of `handle_error` (never returns `none`). -/
theorem parse_cases (input : List Char) :
    (first_line_terminated input = true ∧ parse input = some (Except.ok (Program.mk [])))
    ∨ (first_line_terminated input = false ∧
        parse input = some (Except.error Error.ParseFailed)) := by
  rcases line_ok_or_error input with ⟨hf, v, hv⟩ | ⟨hf, ve, hv⟩
  · exact .inl ⟨hf, by simp [parse, parse_with_errors, complete, hv, Except.map]⟩
  · exact .inr ⟨hf, by simp [parse, parse_with_errors, complete, hv, handle_error, Except.map]⟩

/-- Every error produced by `parse_with_errors` is classified by
`handle_error` as a plain `ParseFailed`, without reaching the
`Err::Incomplete` branch. -/
theorem parse_with_errors_error_classified (input : List Char) (e : NomErr)
    (h : parse_with_errors input = Except.error e) :
    e ≠ NomErr.Incomplete ∧ handle_error input e = some Error.ParseFailed := by
  rcases line_ok_or_error input with ⟨_, v, hv⟩ | ⟨_, ve, hv⟩
  · exfalso
    rw [show parse_with_errors input = Except.ok (v.1, Program.mk []) by
      simp [parse_with_errors, complete, hv, Except.map]] at h
    exact absurd h (by simp)
  · rw [show parse_with_errors input = Except.error (NomErr.Error ve) by
      simp [parse_with_errors, complete, hv, Except.map]] at h
    have he : NomErr.Error ve = e := Except.error.inj h
    subst he
    exact ⟨fun hh => NomErr.noConfusion hh, rfl⟩

/-! ## The claims -/

/-- Claim C1 (evaluation at the failing input): the claim says every
`Ok` result of `parse` contains exactly one top-level `FnDecl` named
`main`.  The code returns `Ok` on the input `"x\n"` with an empty
`Program`, which contains zero `main` declarations — contradicting the
claim and `Program`'s own documentation ("the one requirement being the
presence of a `main` function declaration"). -/
theorem c1_ok_program_lacks_main :
    parse ("x\n".toList) = some (Except.ok (Program.mk [])) ∧
      num_main_fns (Program.mk []) = 0 :=
  ⟨rfl, rfl⟩

/-- Claim C2: for every input, `parse` returns either `Ok` with a
`Program` or an error classified exactly as `ParseFailed`; the
`Result` shape means no partially-populated `Program` accompanies an
error, and the `unreachable!()` panic is never reached. -/
theorem c2_parse_classifies_every_failure (input : List Char) :
    (∃ p, parse input = some (Except.ok p)) ∨
      parse input = some (Except.error Error.ParseFailed) := by
  rcases parse_cases input with ⟨_, h⟩ | ⟨_, h⟩
  · exact .inl ⟨_, h⟩
  · exact .inr h

/-- Claim C3: `PathGlob.resolve` returns exactly the paths of the
caller-supplied universe whose text matches the glob under shell-style
`*` semantics (no cross-segment matching), in the universe's original
relative order (the result is a sublist of the universe); in particular
`PathGlob("a/*")` against `{a/x, a/y, b/z}` yields exactly
`{a/x, a/y}` in that order, and `a/*` does not match `a/x/y`. -/
theorem c3_resolve_matches_in_order :
    (∀ (g : PathGlob) (paths : List Path) (p : Path),
        (p ∈ PathGlob.resolve g paths ↔ p ∈ paths ∧ glob_match g.str p.str = true)
        ∧ List.Sublist (PathGlob.resolve g paths) paths)
    ∧ PathGlob.resolve ⟨"a/*".toList⟩ [⟨"a/x".toList⟩, ⟨"a/y".toList⟩, ⟨"b/z".toList⟩]
        = [⟨"a/x".toList⟩, ⟨"a/y".toList⟩]
    ∧ glob_match "a/*".toList "a/x/y".toList = false := by
  refine ⟨fun g paths p => ⟨?_, ?_⟩, by decide, by decide⟩
  · simp [PathGlob.resolve, List.mem_filter]
  · simp [PathGlob.resolve, List.filter_sublist paths]

/-- Witness for C3 at the spec's concrete example. -/
theorem c3_resolve_matches_in_order_witness :
    (⟨"a/x".toList⟩ : Path) ∈
      PathGlob.resolve ⟨"a/*".toList⟩ [⟨"a/x".toList⟩, ⟨"a/y".toList⟩, ⟨"b/z".toList⟩] :=
  ((c3_resolve_matches_in_order.1 ⟨"a/*".toList⟩
      [⟨"a/x".toList⟩, ⟨"a/y".toList⟩, ⟨"b/z".toList⟩] ⟨"a/x".toList⟩).1).mpr
    ⟨by decide, by decide⟩

/-- Claim C4 (evaluation at the failing input): the claim says a type
declaration with two or more variants where a variant lacks a name is
rejected by `parse` with `ParseFailed`.  The grammar is unimplemented
(`todo!()` stubs that `parse` never calls), and `parse` accepts any
newline-terminated first line: a two-variant declaration whose second
variant is unnamed parses to `Ok` with an empty `Program`. -/
theorem c4_unnamed_multi_variant_not_rejected :
    parse ("type T = One(int) | (str)\n".toList) = some (Except.ok (Program.mk [])) :=
  rfl

/-- Claim C5 (counterexample): the claim also says a source type
variant mixing named and anonymous fields fails to parse; the current
`parse` accepts such a source (any newline-terminated first line),
returning `Ok` with an empty `Program` rather than `ParseFailed`. -/
theorem c5_mixed_fields_not_rejected :
    parse ("type T = T(x int, str)\n".toList) = some (Except.ok (Program.mk [])) :=
  rfl

/-- Claim C5 (amended): in every `TyVariant` contained in any `Program`
returned by `parse`, the fields are homogeneously named or anonymous —
the `Fields` enum makes a mixed variant unrepresentable (its only
constructors are all-named and all-anonymous). -/
theorem c5_returned_variants_homogeneous (input : List Char) (p : Program)
    (h : parse input = some (Except.ok p)) : all_variants_homogeneous p = true := by
  rcases parse_cases input with ⟨_, hp⟩ | ⟨_, hp⟩
  · have h2 : Program.mk [] = p := Except.ok.inj (Option.some.inj (hp.symm.trans h))
    rw [← h2]
    rfl
  · rw [hp] at h
    exact absurd h (by simp)

/-- Witness for C5's amended theorem at a successfully parsed input. -/
theorem c5_returned_variants_homogeneous_witness :
    parse ("x\n".toList) = some (Except.ok (Program.mk [])) ∧
      all_variants_homogeneous (Program.mk []) = true :=
  ⟨rfl, c5_returned_variants_homogeneous ("x\n".toList) (Program.mk []) rfl⟩

/-- The byte-string content scan fails whenever the content contains a
character outside the ASCII range. -/
theorem bstr_content_has_non_ascii (content rest : List Char)
    (hq : '"' ∉ content) (hna : ∃ c ∈ content, 127 < c.toNat) :
    bstr_content (content ++ '"' :: rest) = none := by
  induction content with
  | nil => simp at hna
  | cons c t ih =>
    have hcq : ¬(c = '"') := fun hh => hq (List.mem_cons.mpr (.inl hh.symm))
    have h1 : bstr_content (c :: (t ++ '"' :: rest))
        = if c = '"' then some ([], [c], t ++ '"' :: rest)
          else if c.toNat ≤ 127 then
            (match bstr_content (t ++ '"' :: rest) with
             | some (bytes, consumed, remaining) =>
                some (c.toNat :: bytes, c :: consumed, remaining)
             | none => none)
          else none := rfl
    rw [show (c :: t) ++ '"' :: rest = c :: (t ++ '"' :: rest) from rfl, h1, if_neg hcq]
    by_cases hc7 : c.toNat ≤ 127
    · rw [if_pos hc7]
      rcases hna with ⟨x, hx, hx7⟩
      rcases List.mem_cons.mp hx with rfl | hxt
      · exact absurd hx7 (by omega)
      · rw [ih (fun hh => hq (List.mem_cons_of_mem _ hh)) ⟨x, hxt, hx7⟩]
    · rw [if_neg hc7]

/-- Claim C6: for every byte-string literal token `b"..."` whose quoted
content contains a character outside the ASCII range, the byte-string
literal parser fails to recognise it (returns `none`) — it never
succeeds by truncating or altering the content. -/
theorem c6_bstr_rejects_non_ascii (content rest : List Char)
    (hq : '"' ∉ content) (hna : ∃ c ∈ content, 127 < c.toNat) :
    bstr ('b' :: '"' :: (content ++ '"' :: rest)) = none := by
  have h1 : bstr ('b' :: '"' :: (content ++ '"' :: rest))
      = match bstr_content (content ++ '"' :: rest) with
        | some (bytes, consumed, remaining) =>
            some (⟨bytes, 'b' :: '"' :: consumed⟩, remaining)
        | none => none := rfl
  rw [h1, bstr_content_has_non_ascii content rest hq hna]

/-- Witness for C6 at the byte-string literal `b"é"`. -/
theorem c6_bstr_rejects_non_ascii_witness :
    ('"' ∉ ['é']) ∧ (∃ c ∈ ['é'], 127 < c.toNat) ∧
      bstr ('b' :: '"' :: (['é'] ++ '"' :: [])) = none :=
  ⟨by decide, by decide, c6_bstr_rejects_non_ascii ['é'] [] (by decide) (by decide)⟩

/-- Claim C7 (counterexample): the claim says parsing a well-formed
single-line comment yields a `Comment` node; the comment grammar is
unimplemented, so parsing `"// hi\n"` yields `Ok` with an empty
`Program` containing no `Comment` node at all. -/
theorem c7_no_comment_node :
    parse ("// hi\n".toList) = some (Except.ok (Program.mk [])) ∧
      program_comments (Program.mk []) = [] :=
  ⟨rfl, rfl⟩

/-- Claim C7 (amended): rendering `Comment::SingleLine(s)` via the
`Display` impl produces exactly `s`, and rendering a multi-line comment
concatenates its lines; the parse-level round trip does not hold
because `parse` currently yields no `Comment` nodes. -/
theorem c7_single_line_render_id (s : List Char) (lines : List (List Char)) :
    Comment.render (Comment.SingleLine s) = s ∧
      Comment.render (Comment.MultiLine lines) = lines.flatten :=
  ⟨rfl, rfl⟩

/-- Claim C8: parsing is deterministic — the embedded `parse` is a pure
function of the input slice (the Rust code consults no state outside
the slice; its only side effect, the diagnostic `println`, does not
influence the returned value), so two invocations on the same buffer
yield structurally identical results. -/
theorem c8_parse_deterministic (s t : List Char) (h : s = t) : parse s = parse t := by
  rw [h]

/-- Witness for C8 on a concrete buffer. -/
theorem c8_parse_deterministic_witness :
    ("x\n".toList = "x\n".toList) ∧ parse ("x\n".toList) = parse ("x\n".toList) :=
  ⟨rfl, c8_parse_deterministic ("x\n".toList) ("x\n".toList) rfl⟩

/-- Claim C9: `handle_error` never panics on an error value that
`parse_with_errors` can actually produce: such an error is never
`Err::Incomplete` (the `unreachable!()` branch, modelled as `none`, is
not taken), and diagnostic handling always ends in the plain
`ParseFailed` classification. -/
theorem c9_handle_error_never_panics (input : List Char) (e : NomErr)
    (h : parse_with_errors input = Except.error e) :
    e ≠ NomErr.Incomplete ∧ handle_error input e = some Error.ParseFailed :=
  parse_with_errors_error_classified input e h

/-- Witness for C9 at the empty input, whose parse fails. -/
theorem c9_handle_error_never_panics_witness :
    parse_with_errors [] = Except.error (NomErr.Error (from_error_kind [] ErrorKind.CrLf)) ∧
      NomErr.Error (from_error_kind [] ErrorKind.CrLf) ≠ NomErr.Incomplete ∧
      handle_error [] (NomErr.Error (from_error_kind [] ErrorKind.CrLf))
        = some Error.ParseFailed :=
  ⟨rfl, (c9_handle_error_never_panics [] _ rfl).1, (c9_handle_error_never_panics [] _ rfl).2⟩

/-- Claim C10: `parse` returns `Ok` exactly when the input's first line
is terminated by `"\n"` or `"\r\n"` (equivalently, the input splits as
ordinary characters, a line ending, then anything); on success the
returned `Program` has zero top-level statements, text after the first
line ending is ignored, and an input with no line ending — including
the empty string — yields `ParseFailed`. -/
theorem c10_parse_characterisation :
    ∀ (input pre rest rest' : List Char),
      ((∃ p, parse input = some (Except.ok p)) ↔ first_line_terminated input = true)
      ∧ (first_line_terminated input = true →
          parse input = some (Except.ok (Program.mk [])))
      ∧ (first_line_terminated input = false →
          parse input = some (Except.error Error.ParseFailed))
      ∧ (first_line_terminated input = true ↔
          ∃ a e b, input = a ++ e ++ b ∧ (e = ['\n'] ∨ e = ['\r', '\n']) ∧
            ∀ c ∈ a, c ≠ '\n' ∧ c ≠ '\r')
      ∧ ((∀ c ∈ pre, c ≠ '\n' ∧ c ≠ '\r') →
          parse (pre ++ '\n' :: rest) = parse (pre ++ '\n' :: rest')) := by
  intro input pre rest rest'
  refine ⟨⟨?_, ?_⟩, ?_, ?_, first_line_terminated_iff input, ?_⟩
  · rintro ⟨p, hp⟩
    rcases parse_cases input with ⟨hf, _⟩ | ⟨_, hpe⟩
    · exact hf
    · rw [hpe] at hp
      exact absurd hp (by simp)
  · intro hf
    rcases parse_cases input with ⟨_, hpo⟩ | ⟨hf2, _⟩
    · exact ⟨_, hpo⟩
    · exact absurd (hf.symm.trans hf2) (by decide)
  · intro hf
    rcases parse_cases input with ⟨_, hpo⟩ | ⟨hf2, _⟩
    · exact hpo
    · exact absurd (hf.symm.trans hf2) (by decide)
  · intro hf
    rcases parse_cases input with ⟨hf2, _⟩ | ⟨_, hpe⟩
    · exact absurd (hf2.symm.trans hf) (by decide)
    · exact hpe
  · intro hpre
    rcases parse_cases (pre ++ '\n' :: rest) with ⟨_, hp1⟩ | ⟨hf1, _⟩
    · rcases parse_cases (pre ++ '\n' :: rest') with ⟨_, hp2⟩ | ⟨hf2, _⟩
      · rw [hp1, hp2]
      · exact absurd ((flt_append_of_clean pre ('\n' :: rest') rfl hpre).symm.trans hf2)
          (by decide)
    · exact absurd ((flt_append_of_clean pre ('\n' :: rest) rfl hpre).symm.trans hf1)
        (by decide)

/-- Witness for C10 at an input with no line ending. -/
theorem c10_parse_characterisation_witness :
    first_line_terminated ['a'] = false ∧
      parse ['a'] = some (Except.error Error.ParseFailed) :=
  ⟨rfl, (c10_parse_characterisation ['a'] [] [] []).2.2.1 rfl⟩

end Tin
